import Mathlib

/-!
Verification development for the Song-Recommender repository.

The file embeds, in Lean 4, the parts of the repository that the
specification talks about:

* src/extract.py : the top-k tag selection helpers (topk_by_weight,
  topk_by_count) and the main extraction loop that writes the two
  parallel CSV files.
* src/build_index.py : corpus loading (load_vectors), the
  standardize / reduce / normalize pipeline, the manifest (config)
  record, the nearest-neighbour query contract, and the artifact
  save sequence.

Numeric values are modelled by exact rationals.  The floating square
root is passed in as an explicit function parameter, characterised by
hypotheses only at the inputs where a theorem needs it.  Stages whose
implementation lives in external libraries (sklearn StandardScaler,
PCA, normalize, NearestNeighbors) are modelled from the specification
text, faithful to its words; everything else is translated from the
Python source.
-/

namespace SongRec

/-! ### Models of src/extract.py -/

/-- One record extracted from an .h5 file: extract_one builds both the
tracks row and the features row around a single track_id value, so the
shared id is a single field here.  The remaining columns play no role
in the claims and stay abstract. -/
structure ExtractedRow (α β : Type) where
  track_id : String
  trackMeta : α
  featData : β

/-- State of the main loop of extract.py: the seen-id set, the rows
written so far to each CSV (in order), and the two counters. -/
structure ExtractState (α β : Type) where
  seen : List String
  tracksOut : List (String × α)
  featuresOut : List (String × β)
  processed : Nat
  skipped : Nat

/-- One iteration of the loop in extract.py main (lines 310-333):
a failed extraction (missing track_id or an exception) is counted as
skipped; a duplicate track_id is counted as skipped; otherwise both
rows are written and the id is added to the seen set. -/
def extractStep (s : ExtractState α β) : Option (ExtractedRow α β) → ExtractState α β
  | none => { s with skipped := s.skipped + 1 }
  | some row =>
    if row.track_id ∈ s.seen then { s with skipped := s.skipped + 1 }
    else
      { s with
        seen := row.track_id :: s.seen
        tracksOut := s.tracksOut ++ [(row.track_id, row.trackMeta)]
        featuresOut := s.featuresOut ++ [(row.track_id, row.featData)]
        processed := s.processed + 1 }

/-- The main loop of extract.py over the per-file extraction results. -/
def extractMain (inputs : List (Option (ExtractedRow α β))) : ExtractState α β :=
  inputs.foldl extractStep ⟨[], [], [], 0, 0⟩

/-- Ordering used by the Python sort in topk_by_weight and
topk_by_count: pairs sorted by descending numeric weight
(list.sort with key x[1] and reverse true). -/
def weightGe (p q : String × ℚ) : Prop := q.2 ≤ p.2

instance : DecidableRel weightGe := fun p q => inferInstanceAs (Decidable (q.2 ≤ p.2))

/-- The eligible (name, weight) pairs of topk_by_weight: zip the items
with the weights, keep a pair when the decoded name is non-empty and
the weight parsed to a finite number (to_float returned a value rather
than the empty string; a parse failure or NaN is modelled as none). -/
def eligiblePairs (items : List String) (weights : List (Option ℚ)) :
    List (String × ℚ) :=
  (items.zip weights).filterMap fun p =>
    match p with
    | (name, some w) => if name = "" then none else some (name, w)
    | (_, none) => none

/-- The result loop of topk_by_weight / topk_by_count: walk the sorted
pairs, skip a name whose lowercase form was already taken, otherwise
take it, and stop as soon as the count of taken names reaches k.  The
argument c is the number of names already taken.  Note the stop test
runs after the take, exactly as in the Python source (append, then
break when the length is at least k). -/
def dedupTake (k : Nat) : List (String × ℚ) → List String → Nat → List String
  | [], _, _ => []
  | (name, _) :: rest, seen, c =>
    if name.toLower ∈ seen then dedupTake k rest seen c
    else if k ≤ c + 1 then [name]
    else name :: dedupTake k rest (name.toLower :: seen) (c + 1)

/-- Companion of dedupTake that keeps the weights with the names; used
to state the ordering property of the result. -/
def dedupTakePairs (k : Nat) :
    List (String × ℚ) → List String → Nat → List (String × ℚ)
  | [], _, _ => []
  | (name, w) :: rest, seen, c =>
    if name.toLower ∈ seen then dedupTakePairs k rest seen c
    else if k ≤ c + 1 then [(name, w)]
    else (name, w) :: dedupTakePairs k rest (name.toLower :: seen) (c + 1)

/-- topk_by_weight from extract.py: missing items or weights give the
empty list; otherwise the eligible pairs are sorted by descending
weight and deduplicated case-insensitively up to k names. -/
def topk_by_weight (items : Option (List String))
    (weights : Option (List (Option ℚ))) (k : Nat) : List String :=
  match items, weights with
  | none, _ => []
  | _, none => []
  | some its, some ws =>
    dedupTake k (List.insertionSort weightGe (eligiblePairs its ws)) [] 0

/-- topk_by_count from extract.py: its body is identical to
topk_by_weight with counts in place of weights. -/
def topk_by_count (items : Option (List String))
    (counts : Option (List (Option ℚ))) (k : Nat) : List String :=
  match items, counts with
  | none, _ => []
  | _, none => []
  | some its, some ws =>
    dedupTake k (List.insertionSort weightGe (eligiblePairs its ws)) [] 0

/-! ### Models of src/build_index.py -/

/-- Squared Euclidean norm of a vector. -/
def normSq (v : List ℚ) : ℚ := (v.map fun x => x * x).sum

/-- Dot product of two vectors (over the common prefix). -/
def dot (u v : List ℚ) : ℚ := ((u.zip v).map fun p => p.1 * p.2).sum

/-- Error cases of corpus loading: np.vstack raises on an empty list of
arrays and on arrays of differing length. -/
inductive LoadError where
  | emptyCorpus : LoadError
  | dimMismatch : LoadError
deriving DecidableEq

/-- Model of np.vstack over a list of 1-dimensional arrays: fails on an
empty list, fails when some array length differs from the first, and
otherwise returns the stacked matrix unchanged. -/
def vstack : List (List ℚ) → Except LoadError (List (List ℚ))
  | [] => Except.error LoadError.emptyCorpus
  | r :: rs =>
    if rs.all fun s => s.length == r.length then Except.ok (r :: rs)
    else Except.error LoadError.dimMismatch

/-- The records load_vectors keeps: rows whose id and whose feature
array are both present (lines 45-49 skip a row when either is None). -/
def keptRecords (rows : List (Option String × Option (List ℚ))) :
    List (String × List ℚ) :=
  rows.filterMap fun p =>
    match p with
    | (some tid, some fs) => some (tid, fs)
    | _ => none

/-- load_vectors from build_index.py: skip rows with a missing id or a
missing feature array, then stack the remaining arrays with np.vstack.
A length disagreement among the kept arrays (including an empty array
next to non-empty ones) makes vstack fail, aborting the build. -/
def load_vectors (rows : List (Option String × Option (List ℚ))) :
    Except LoadError (List String × List (List ℚ)) :=
  (vstack ((keptRecords rows).map Prod.snd)).map
    fun X => ((keptRecords rows).map Prod.fst, X)

/-! #### Standardizer (sklearn StandardScaler; modelled from the spec:
fit computes the per-dimension mean and population standard deviation,
transform computes (x - mean) / std, and a zero standard deviation is
replaced by 1 so a constant feature never divides by zero). -/

/-- Mean of column j of the corpus. -/
def colMean (X : List (List ℚ)) (j : Nat) : ℚ :=
  ((X.map fun r => r.getD j 0).sum) / (X.length : ℚ)

/-- Population variance of column j of the corpus. -/
def colVar (X : List (List ℚ)) (j : Nat) : ℚ :=
  ((X.map fun r => (r.getD j 0 - colMean X j) ^ 2).sum) / (X.length : ℚ)

/-- The per-column divisor of the standardizer: the square root of the
variance, except that an exactly-zero variance yields 1. -/
def colScale (sqrt : ℚ → ℚ) (X : List (List ℚ)) (j : Nat) : ℚ :=
  if colVar X j = 0 then 1 else sqrt (colVar X j)

/-- Standardize one row against the corpus statistics. -/
def standardizeRow (sqrt : ℚ → ℚ) (X : List (List ℚ)) (r : List ℚ) : List ℚ :=
  r.mapIdx fun j x => (x - colMean X j) / colScale sqrt X j

/-- scaler.fit_transform(X): standardize every row of the corpus. -/
def fit_transform (sqrt : ℚ → ℚ) (X : List (List ℚ)) : List (List ℚ) :=
  X.map (standardizeRow sqrt X)

/-! #### Dimensionality reducer (sklearn PCA; modelled from the spec:
fit produces a projection basis and the explained-variance list from
the data and the solver randomness; transform projects each row onto
the first k basis directions).  The solver itself stays an explicit
parameter: the claims about it concern only its use of randomness and
the shape of its output. -/

/-- A fitted reduction model: the projection (direction index and row
to coordinate) together with the explained-variance list. -/
structure PCAModel where
  components : Nat → List ℚ → ℚ
  explained_variance : List ℚ

/-- A deterministic pseudo-random stream derived from a seed. -/
def seedStream (s : Nat) : Nat → Nat := fun i => s + i

/-- The randomness actually consumed by the solver: with random_state
set, a stream derived from the seed alone; with random_state absent,
an ambient run-dependent stream. -/
def solverRandomness (random_state : Option Nat) (rng : Nat → Nat) : Nat → Nat :=
  match random_state with
  | some s => seedStream s
  | none => rng

/-- PCA fit: run the solver on the data with the designated randomness. -/
def pcaFit (solver : (Nat → Nat) → List (List ℚ) → Nat → PCAModel)
    (random_state : Option Nat) (rng : Nat → Nat)
    (X : List (List ℚ)) (k : Nat) : PCAModel :=
  solver (solverRandomness random_state rng) X k

/-- Project one row onto the first k directions of a basis. -/
def pcaProject (basis : Nat → List ℚ → ℚ) (k : Nat) (r : List ℚ) : List ℚ :=
  (List.range k).map fun i => basis i r

/-- pca.fit_transform on already-fitted components: project every row. -/
def pca_fit_transform (basis : Nat → List ℚ → ℚ) (k : Nat)
    (X : List (List ℚ)) : List (List ℚ) :=
  X.map (pcaProject basis k)

/-- The constants of build_index.py: USE_PCA, PCA_COMPONENTS, and the
random_state=42 passed to PCA. -/
def USE_PCA : Bool := true

def PCA_COMPONENTS : Nat := 64

def RANDOM_STATE : Option Nat := some 42

/-! #### Normalizer (modelled from the spec: normalize divides a vector
by its Euclidean norm, and a zero vector fails with an explicit error
condition rather than dividing by zero).  In exact arithmetic a vector
has Euclidean norm zero exactly when its squared norm is zero. -/

inductive NormError where
  | zeroVector : NormError
deriving DecidableEq

/-- Normalize one vector to unit Euclidean length, failing on the zero
vector. -/
def normalizeE (sqrt : ℚ → ℚ) (v : List ℚ) : Except NormError (List ℚ) :=
  if normSq v = 0 then Except.error NormError.zeroVector
  else Except.ok (v.map fun x => x / sqrt (normSq v))

/-- Row-wise normalization of the embedding matrix (line 74 of
build_index.py): every row is normalized; the first zero row aborts
with the explicit error. -/
def buildEmbeddings (sqrt : ℚ → ℚ) : List (List ℚ) → Except NormError (List (List ℚ))
  | [] => Except.ok []
  | v :: vs =>
    match normalizeE sqrt v, buildEmbeddings sqrt vs with
    | Except.ok w, Except.ok ws => Except.ok (w :: ws)
    | Except.error e, _ => Except.error e
    | Except.ok _, Except.error e => Except.error e

/-! #### Index and query (modelled from the spec: the index owns the
embedding matrix and the parallel id list; query computes the cosine
distance of the query vector to every stored embedding, sorts by
ascending distance with ties broken by lexical id order, clamps k to
the number of stored vectors, and fails on a dimensionality mismatch). -/

/-- The brute-force index: ids, the parallel embedding matrix, and the
stored dimensionality. -/
structure Index where
  ids : List String
  emb : List (List ℚ)
  dim : Nat

inductive QueryError where
  | dimMismatch : QueryError
deriving DecidableEq

/-- Cosine distance between two vectors: one minus the cosine
similarity. -/
def cosineDist (sqrt : ℚ → ℚ) (u v : List ℚ) : ℚ :=
  1 - dot u v / (sqrt (normSq u) * sqrt (normSq v))

/-- The query result ordering: ascending distance, ties broken by
lexical order of the id. -/
def queryRel (p q : String × ℚ) : Prop :=
  p.2 < q.2 ∨ (p.2 = q.2 ∧ p.1 ≤ q.1)

instance : DecidableRel queryRel := fun p q =>
  inferInstanceAs (Decidable (p.2 < q.2 ∨ (p.2 = q.2 ∧ p.1 ≤ q.1)))

instance : IsTotal (String × ℚ) queryRel where
  total p q := by
    rcases lt_trichotomy p.2 q.2 with h | h | h
    · exact Or.inl (Or.inl h)
    · rcases le_total p.1 q.1 with h1 | h1
      · exact Or.inl (Or.inr ⟨h, h1⟩)
      · exact Or.inr (Or.inr ⟨h.symm, h1⟩)
    · exact Or.inr (Or.inl h)

instance : IsTrans (String × ℚ) queryRel where
  trans p q s hpq hqs := by
    rcases hpq with h1 | ⟨h1, h1i⟩ <;> rcases hqs with h2 | ⟨h2, h2i⟩
    · exact Or.inl (h1.trans h2)
    · exact Or.inl (h2 ▸ h1)
    · exact Or.inl (h1 ▸ h2)
    · exact Or.inr ⟨h1.trans h2, h1i.trans h2i⟩

/-- Index.query: fail when the query vector's length differs from the
stored dimensionality; otherwise pair every stored id with the cosine
distance of its embedding to the query vector, sort ascending with the
id tie-break, and return the first min(k, n) pairs. -/
def query (sqrt : ℚ → ℚ) (idx : Index) (v : List ℚ) (k : Nat) :
    Except QueryError (List (String × ℚ)) :=
  if v.length = idx.dim then
    Except.ok
      ((List.insertionSort queryRel
        (idx.ids.zip (idx.emb.map (cosineDist sqrt v)))).take (min k idx.ids.length))
  else Except.error QueryError.dimMismatch

/-! #### The build pipeline and its manifest (main of build_index.py) -/

/-- The manifest fields the claims are about (config dict of
build_index.py lines 92-104; the timestamp and the static metric and
column-name strings carry no content for the claims). -/
structure Config where
  n_songs : Nat
  raw_dim : Nat
  use_pca : Bool
  pca_components_requested : Nat
  final_dim : Nat
deriving DecidableEq

/-- X.shape[1] of a stacked matrix: the length of its first row. -/
def rawDim (X : List (List ℚ)) : Nat := (X.headD []).length

inductive BuildError where
  | load : LoadError → BuildError
  | norm : NormError → BuildError
deriving DecidableEq

/-- main of build_index.py (lines 54-105): load the corpus, fit and
apply the standardizer, clamp the requested component count to the
raw dimensionality and apply PCA when enabled, normalize every row,
and record the manifest with both the requested and the final
dimension. -/
def buildMain (sqrt : ℚ → ℚ)
    (solver : (Nat → Nat) → List (List ℚ) → Nat → PCAModel)
    (rng : Nat → Nat) (use_pca : Bool) (target : Nat)
    (rows : List (Option String × Option (List ℚ))) :
    Except BuildError (List String × List (List ℚ) × Config) :=
  match load_vectors rows with
  | Except.error e => Except.error (BuildError.load e)
  | Except.ok (track_ids, X) =>
    let X_scaled := fit_transform sqrt X
    let n_components := min target (rawDim X_scaled)
    let X_red :=
      if use_pca then
        pca_fit_transform
          (pcaFit solver RANDOM_STATE rng X_scaled n_components).components
          n_components X_scaled
      else X_scaled
    match buildEmbeddings sqrt X_red with
    | Except.error e => Except.error (BuildError.norm e)
    | Except.ok X_emb =>
      Except.ok (track_ids, X_emb,
        { n_songs := X.length
          raw_dim := rawDim X
          use_pca := use_pca
          pca_components_requested := target
          final_dim := rawDim X_emb })

/-- The reduced matrix the build normalizes (with reduction enabled):
the standardized corpus projected onto the clamped number of PCA
directions.  This names the intermediate value X_emb of build_index.py
line 70 so that properties of the normalization stage inside the build
can be stated. -/
def reducedMatrix (sqrt : ℚ → ℚ)
    (solver : (Nat → Nat) → List (List ℚ) → Nat → PCAModel)
    (rng : Nat → Nat) (target : Nat) (X : List (List ℚ)) : List (List ℚ) :=
  pca_fit_transform
    (pcaFit solver RANDOM_STATE rng (fit_transform sqrt X)
      (min target (rawDim (fit_transform sqrt X)))).components
    (min target (rawDim (fit_transform sqrt X))) (fit_transform sqrt X)

/-! #### Artifact save sequence (lines 83-105 of build_index.py) -/

/-- One write performed by the save step: the path written and whether
the write goes to a temporary staging location (to be published later)
or directly to the final path. -/
structure WriteEvent where
  path : String
  toTemp : Bool
deriving DecidableEq

/-- The final artifact paths, in the order build_index.py writes them:
scaler, the optional pca model, the knn model, the id list, the
embedding matrix, and the manifest. -/
def artifactPaths (use_pca : Bool) : List String :=
  ["scaler.pkl"] ++ (if use_pca then ["pca.pkl"] else []) ++
    ["knn.pkl", "track_ids.npy", "embeddings.npy", "config.json"]

/-- The write sequence of the save step: every artifact is written
directly to its final path (joblib.dump, np.save and write_text go
straight to MODELS_DIR; no temporary location is used). -/
def saveSteps (use_pca : Bool) : List WriteEvent :=
  (artifactPaths use_pca).map fun p => { path := p, toTemp := false }

/-- Run a list of write events over a published store (path to content
version): a write to a final path replaces that path's version with v;
a write to a temporary location leaves the published store unchanged. -/
def runWrites (v : Nat) (steps : List WriteEvent) (fs : String → Nat) :
    String → Nat :=
  steps.foldl (fun g e => fun p => if p = e.path ∧ e.toTemp = false then v else g p) fs

/-! ### Theorems -/

/-! #### Lemmas about the extraction loop (C9) -/

lemma extractLoop_inv (inputs : List (Option (ExtractedRow α β))) :
    ∀ s : ExtractState α β,
      (s.tracksOut.map Prod.fst).Nodup →
      s.tracksOut.map Prod.fst = s.featuresOut.map Prod.fst →
      (∀ t ∈ s.tracksOut.map Prod.fst, t ∈ s.seen) →
      s.processed = s.tracksOut.length →
      ((inputs.foldl extractStep s).tracksOut.map Prod.fst).Nodup
      ∧ (inputs.foldl extractStep s).tracksOut.map Prod.fst
          = (inputs.foldl extractStep s).featuresOut.map Prod.fst
      ∧ (∀ t ∈ (inputs.foldl extractStep s).tracksOut.map Prod.fst,
          t ∈ (inputs.foldl extractStep s).seen)
      ∧ (inputs.foldl extractStep s).processed
          = (inputs.foldl extractStep s).tracksOut.length
      ∧ (inputs.foldl extractStep s).processed + (inputs.foldl extractStep s).skipped
          = s.processed + s.skipped + inputs.length := by
  induction inputs with
  | nil => intro s h1 h2 h3 h4; exact ⟨h1, h2, h3, h4, rfl⟩
  | cons a as ih =>
    intro s h1 h2 h3 h4
    cases a with
    | none =>
      have h := ih { s with skipped := s.skipped + 1 } h1 h2 h3 h4
      simp only [List.foldl_cons, extractStep, List.length_cons]
      refine ⟨h.1, h.2.1, h.2.2.1, h.2.2.2.1, ?_⟩
      have h5 := h.2.2.2.2
      dsimp only at h5
      omega
    | some row =>
      by_cases hmem : row.track_id ∈ s.seen
      · have h := ih { s with skipped := s.skipped + 1 } h1 h2 h3 h4
        refine ⟨?_, ?_, ?_, ?_, ?_⟩ <;>
          simp only [List.foldl_cons, extractStep, if_pos hmem, List.length_cons]
        · exact h.1
        · exact h.2.1
        · exact h.2.2.1
        · exact h.2.2.2.1
        · have h5 := h.2.2.2.2; dsimp only at h5; omega
      · set s2 : ExtractState α β :=
          { s with
            seen := row.track_id :: s.seen
            tracksOut := s.tracksOut ++ [(row.track_id, row.trackMeta)]
            featuresOut := s.featuresOut ++ [(row.track_id, row.featData)]
            processed := s.processed + 1 } with hs2
        have hnotin : row.track_id ∉ s.tracksOut.map Prod.fst :=
          fun hin => hmem (h3 _ hin)
        have g1 : (s2.tracksOut.map Prod.fst).Nodup := by
          simp only [hs2, List.map_append, List.map_cons, List.map_nil]
          refine List.Nodup.append h1 (List.nodup_singleton _) ?_
          intro x hx hx2
          simp only [List.mem_singleton] at hx2
          subst hx2
          exact hnotin hx
        have g2 : s2.tracksOut.map Prod.fst = s2.featuresOut.map Prod.fst := by
          simp only [hs2, List.map_append, List.map_cons, List.map_nil, h2]
        have g3 : ∀ t ∈ s2.tracksOut.map Prod.fst, t ∈ s2.seen := by
          intro t ht
          simp only [hs2, List.map_append, List.mem_append] at ht
          rcases ht with ht | ht
          · exact List.mem_cons_of_mem _ (h3 _ ht)
          · simp only [List.map_cons, List.map_nil, List.mem_singleton] at ht
            simp [hs2, ht]
        have g4 : s2.processed = s2.tracksOut.length := by
          simp [hs2, h4]
        have h := ih s2 g1 g2 g3 g4
        refine ⟨?_, ?_, ?_, ?_, ?_⟩ <;>
          simp only [List.foldl_cons, extractStep, if_neg hmem, List.length_cons]
        · exact h.1
        · exact h.2.1
        · exact h.2.2.1
        · exact h.2.2.2.1
        · have := h.2.2.2.2; simp only [hs2] at this; omega

/-- Claim C9: over any sequence of per-file extraction results, the
main loop of extract.py writes each track_id at most once (a duplicate
or failed extraction is skipped and counted), the tracks and features
outputs carry the same ids in the same order, and every input is
either processed or skipped. -/
theorem extract_unique_parallel (inputs : List (Option (ExtractedRow α β))) :
    ((extractMain inputs).tracksOut.map Prod.fst).Nodup
    ∧ (extractMain inputs).tracksOut.map Prod.fst
        = (extractMain inputs).featuresOut.map Prod.fst
    ∧ (extractMain inputs).processed = (extractMain inputs).tracksOut.length
    ∧ (extractMain inputs).processed + (extractMain inputs).skipped = inputs.length := by
  have h := extractLoop_inv inputs ⟨[], [], [], 0, 0⟩ (by simp) (by simp)
    (by simp) (by simp)
  exact ⟨h.1, h.2.1, h.2.2.2.1, by simpa using h.2.2.2.2⟩

/-! #### Lemmas about the top-k helpers (C10) -/

instance : IsTotal (String × ℚ) weightGe where
  total p q := le_total q.2 p.2

instance : IsTrans (String × ℚ) weightGe where
  trans _ _ _ h1 h2 := le_trans h2 h1

lemma dedupTake_eq_map_fst (k : Nat) :
    ∀ (l : List (String × ℚ)) (seen : List String) (c : Nat),
      dedupTake k l seen c = (dedupTakePairs k l seen c).map Prod.fst := by
  intro l
  induction l with
  | nil => intro seen c; rfl
  | cons p rest ih =>
    intro seen c
    obtain ⟨name, w⟩ := p
    simp only [dedupTake, dedupTakePairs]
    by_cases h1 : name.toLower ∈ seen
    · simp only [if_pos h1, ih]
    · by_cases h2 : k ≤ c + 1
      · simp [if_neg h1, if_pos h2]
      · simp [if_neg h1, if_neg h2, ih]

lemma dedupTakePairs_sublist (k : Nat) :
    ∀ (l : List (String × ℚ)) (seen : List String) (c : Nat),
      List.Sublist (dedupTakePairs k l seen c) l := by
  intro l
  induction l with
  | nil => intro seen c; exact List.Sublist.refl _
  | cons p rest ih =>
    intro seen c
    obtain ⟨name, w⟩ := p
    simp only [dedupTakePairs]
    by_cases h1 : name.toLower ∈ seen
    · simp only [if_pos h1]
      exact (ih seen c).cons _
    · by_cases h2 : k ≤ c + 1
      · simp only [if_neg h1, if_pos h2]
        exact (List.nil_sublist rest).cons₂ _
      · simp only [if_neg h1, if_neg h2]
        exact (ih _ _).cons₂ _

lemma dedupTakePairs_length (k : Nat) :
    ∀ (l : List (String × ℚ)) (seen : List String) (c : Nat),
      (dedupTakePairs k l seen c).length ≤ max (k - c) 1 := by
  intro l
  induction l with
  | nil => intro seen c; simp [dedupTakePairs]
  | cons p rest ih =>
    intro seen c
    obtain ⟨name, w⟩ := p
    simp only [dedupTakePairs]
    by_cases h1 : name.toLower ∈ seen
    · simp only [if_pos h1]; exact ih seen c
    · by_cases h2 : k ≤ c + 1
      · simp only [if_neg h1, if_pos h2, List.length_singleton]
        omega
      · simp only [if_neg h1, if_neg h2, List.length_cons]
        have := ih (name.toLower :: seen) (c + 1)
        omega

lemma dedupTakePairs_nodup_lower (k : Nat) :
    ∀ (l : List (String × ℚ)) (seen : List String) (c : Nat),
      (∀ p ∈ dedupTakePairs k l seen c, p.1.toLower ∉ seen)
      ∧ ((dedupTakePairs k l seen c).map (fun p => p.1.toLower)).Nodup := by
  intro l
  induction l with
  | nil => intro seen c; simp [dedupTakePairs]
  | cons p rest ih =>
    intro seen c
    obtain ⟨name, w⟩ := p
    simp only [dedupTakePairs]
    by_cases h1 : name.toLower ∈ seen
    · simp only [if_pos h1]; exact ih seen c
    · by_cases h2 : k ≤ c + 1
      · simp only [if_neg h1, if_pos h2]
        constructor
        · intro q hq
          simp only [List.mem_singleton] at hq
          subst hq
          exact h1
        · simp
      · simp only [if_neg h1, if_neg h2]
        obtain ⟨ihm, ihn⟩ := ih (name.toLower :: seen) (c + 1)
        constructor
        · intro q hq
          simp only [List.mem_cons] at hq
          rcases hq with hq | hq
          · subst hq; exact h1
          · exact fun hs => (ihm q hq) (List.mem_cons_of_mem _ hs)
        · simp only [List.map_cons, List.nodup_cons]
          refine ⟨?_, ihn⟩
          intro hmem
          simp only [List.mem_map] at hmem
          obtain ⟨q, hq, hql⟩ := hmem
          exact (ihm q hq) (hql ▸ List.mem_cons_self _ _)

lemma mem_eligiblePairs {its : List String} {ws : List (Option ℚ)}
    {p : String × ℚ} (hp : p ∈ eligiblePairs its ws) : p.1 ≠ "" := by
  simp only [eligiblePairs, List.mem_filterMap] at hp
  obtain ⟨q, _, hq⟩ := hp
  obtain ⟨name, w?⟩ := q
  cases w? with
  | none => simp at hq
  | some w =>
    simp only at hq
    by_cases hname : name = ""
    · simp [hname] at hq
    · simp only [if_neg hname, Option.some_inj] at hq
      subst hq
      exact hname

/-- Claim C10 counterexample: with one eligible item and k = 0,
topk_by_weight returns one name, not at most zero, because the Python
loop appends a name before testing whether the result has reached
length k. -/
theorem topk_zero_cex :
    topk_by_weight (some ["rock"]) (some [some 1]) 0 = ["rock"]
    ∧ ¬ (topk_by_weight (some ["rock"]) (some [some 1]) 0).length ≤ 0 := by
  constructor
  · rfl
  · decide

/-- Claim C10 (amended): topk_by_weight returns at most max(k, 1)
strings (for k = 0 it still returns one name when an eligible item
exists, since the loop appends before testing the length), pairwise
distinct under case-insensitive comparison, each non-empty and drawn
from the zip of items and parseable finite weights, in non-increasing
weight order; a missing items or weights list gives the empty list;
and topk_by_count computes the same function of its inputs. -/
theorem topk_props (its : List String) (ws : List (Option ℚ)) (k : Nat) :
    topk_by_count (some its) (some ws) k = topk_by_weight (some its) (some ws) k
    ∧ topk_by_weight none (some ws) k = []
    ∧ topk_by_weight (some its) none k = []
    ∧ (topk_by_weight (some its) (some ws) k).length ≤ max k 1
    ∧ ((topk_by_weight (some its) (some ws) k).map String.toLower).Nodup
    ∧ topk_by_weight (some its) (some ws) k
        = (dedupTakePairs k
            (List.insertionSort weightGe (eligiblePairs its ws)) [] 0).map Prod.fst
    ∧ List.Pairwise weightGe
        (dedupTakePairs k (List.insertionSort weightGe (eligiblePairs its ws)) [] 0)
    ∧ ∀ s ∈ topk_by_weight (some its) (some ws) k,
        s ≠ "" ∧ ∃ w, (s, w) ∈ eligiblePairs its ws := by
  have hmap := dedupTake_eq_map_fst k
    (List.insertionSort weightGe (eligiblePairs its ws)) [] 0
  have hsub := dedupTakePairs_sublist k
    (List.insertionSort weightGe (eligiblePairs its ws)) [] 0
  refine ⟨rfl, rfl, rfl, ?_, ?_, ?_, ?_, ?_⟩
  · show (dedupTake k (List.insertionSort weightGe (eligiblePairs its ws)) [] 0).length
        ≤ max k 1
    rw [hmap, List.length_map]
    have h1 := dedupTakePairs_length k
      (List.insertionSort weightGe (eligiblePairs its ws)) [] 0
    omega
  · show ((dedupTake k (List.insertionSort weightGe (eligiblePairs its ws)) [] 0).map
        String.toLower).Nodup
    rw [hmap, List.map_map]
    exact (dedupTakePairs_nodup_lower k _ [] 0).2
  · exact hmap
  · exact List.Pairwise.sublist hsub (List.sorted_insertionSort weightGe _)
  · intro s hs
    show s ≠ "" ∧ ∃ w, (s, w) ∈ eligiblePairs its ws
    have hs2 : s ∈ (dedupTakePairs k
        (List.insertionSort weightGe (eligiblePairs its ws)) [] 0).map Prod.fst :=
      hmap ▸ hs
    simp only [List.mem_map] at hs2
    obtain ⟨p, hp, hps⟩ := hs2
    have hmem : p ∈ eligiblePairs its ws := by
      have := hsub.mem hp
      exact (List.mem_insertionSort weightGe).1 this
    subst hps
    exact ⟨mem_eligiblePairs hmem, p.2, by simpa using hmem⟩

/-! #### Normalizer theorems (C2, C3) -/

/-- Claim C3: on a zero input vector (squared Euclidean norm zero,
which in exact arithmetic is exactly Euclidean norm zero), the
normalizer fails with the explicit zero-vector error condition rather
than dividing by zero: no NaN and no unsignalled non-unit result can
be produced. -/
theorem normalize_zero_error (sqrt : ℚ → ℚ) (v : List ℚ) (h : normSq v = 0) :
    normalizeE sqrt v = Except.error NormError.zeroVector := by
  simp [normalizeE, h]

theorem normalize_zero_error_witness :
    normalizeE (fun x => x) [0, 0] = Except.error NormError.zeroVector :=
  normalize_zero_error (fun x => x) [0, 0] (by norm_num [normSq])

/-! #### PCA determinism (C8) -/

/-- Claim C8: the reducer's fit is deterministic across runs: because
build_index.py passes the fixed random_state 42, the randomness the
solver consumes is derived from the seed alone, so two runs over the
same corpus and target with different ambient random streams produce
the same fitted model, in particular the same explained-variance list
(magnitudes and order), and even the same basis with no sign
ambiguity left. -/
theorem pca_fit_deterministic
    (solver : (Nat → Nat) → List (List ℚ) → Nat → PCAModel)
    (X : List (List ℚ)) (k : Nat) (rng1 rng2 : Nat → Nat) :
    pcaFit solver RANDOM_STATE rng1 X k = pcaFit solver RANDOM_STATE rng2 X k
    ∧ (pcaFit solver RANDOM_STATE rng1 X k).explained_variance
        = (pcaFit solver RANDOM_STATE rng2 X k).explained_variance
    ∧ RANDOM_STATE = some 42 :=
  ⟨rfl, rfl, rfl⟩

lemma normSq_div (s : ℚ) : ∀ v : List ℚ,
    normSq (v.map fun x => x / s) = normSq v / (s * s)
  | [] => by simp [normSq]
  | x :: v => by
    have ih := normSq_div s v
    simp only [normSq, List.map_cons, List.map_map, List.sum_cons] at ih ⊢
    rw [ih, div_mul_div_comm, div_add_div_same]

/-- Claim C2: every vector the normalization stage accepts comes out
with Euclidean norm 1: when the square root used is exact at the
vector's squared norm and that squared norm is non-zero, every row of
the normalized embedding matrix has squared norm exactly 1 — hence
every embedding stored in the index is unit-norm. -/
theorem normalize_unit (sqrt : ℚ → ℚ) (X W : List (List ℚ))
    (hsq : ∀ v ∈ X, sqrt (normSq v) * sqrt (normSq v) = normSq v ∧ normSq v ≠ 0)
    (hW : buildEmbeddings sqrt X = Except.ok W) :
    ∀ w ∈ W, normSq w = 1 := by
  induction X generalizing W with
  | nil =>
    simp only [buildEmbeddings, Except.ok.injEq] at hW
    subst hW
    simp
  | cons v vs ih =>
    have hv := hsq v (List.mem_cons_self _ _)
    have hnorm : normalizeE sqrt v
        = Except.ok (v.map fun x => x / sqrt (normSq v)) := by
      simp [normalizeE, hv.2]
    rw [buildEmbeddings, hnorm] at hW
    cases hvs : buildEmbeddings sqrt vs with
    | error e =>
      rw [hvs] at hW
      exact absurd hW (by simp)
    | ok ws =>
      rw [hvs] at hW
      simp only [Except.ok.injEq] at hW
      subst hW
      intro w hw
      rcases List.mem_cons.1 hw with rfl | hw2
      · rw [normSq_div, hv.1, div_self hv.2]
      · exact ih ws (fun u hu => hsq u (List.mem_cons_of_mem _ hu)) hvs w hw2

theorem normalize_unit_witness : normSq [(3 : ℚ) / 5, 4 / 5] = 1 := by
  have hW : buildEmbeddings (fun x => if x = (25 : ℚ) then 5 else 0) [[3, 4]]
      = Except.ok [[3 / 5, 4 / 5]] := by
    norm_num [buildEmbeddings, normalizeE, normSq]
  exact normalize_unit (fun x => if x = (25 : ℚ) then 5 else 0) [[3, 4]]
    [[3 / 5, 4 / 5]] (by norm_num [normSq]) hW [(3 : ℚ) / 5, 4 / 5] (by simp)

/-! #### Corpus loading (C5) -/

/-- Claim C5 counterexample: a record with an empty vector next to a
well-formed one is not skipped: load_vectors aborts with a
dimension-mismatch error from the stacking step, and in particular
does not return the retained well-formed record. -/
theorem load_vectors_cex :
    load_vectors [(some "a", some [1, 2]), (some "b", some [])]
      = Except.error LoadError.dimMismatch
    ∧ load_vectors [(some "a", some [1, 2]), (some "b", some [])]
      ≠ Except.ok (["a"], [[1, 2]]) := by
  constructor
  · rfl
  · intro h
    have h2 : (Except.error LoadError.dimMismatch :
        Except LoadError (List String × List (List ℚ)))
        = Except.ok (["a"], [[1, 2]]) := h
    exact Except.noConfusion h2

/-- Claim C5 (amended): records with a null id or a null vector are
skipped and all remaining records are kept in order; when every kept
vector has the same length as the first, loading succeeds with exactly
the kept ids and vectors; but a kept vector whose length disagrees
with the first (an empty vector among non-empty ones included) aborts
the load with a dimension-mismatch error instead of being skipped, and
an empty kept set aborts with an empty-corpus error. -/
theorem load_vectors_amended (rows : List (Option String × Option (List ℚ))) :
    (∀ v, keptRecords ((none, v) :: rows) = keptRecords rows)
    ∧ (∀ t, keptRecords ((some t, none) :: rows) = keptRecords rows)
    ∧ (∀ t f, keptRecords ((some t, some f) :: rows) = (t, f) :: keptRecords rows)
    ∧ (∀ r rs, (keptRecords rows).map Prod.snd = r :: rs →
        (rs.all fun s => s.length == r.length) = true →
        load_vectors rows = Except.ok ((keptRecords rows).map Prod.fst, r :: rs))
    ∧ (∀ r rs, (keptRecords rows).map Prod.snd = r :: rs →
        (rs.all fun s => s.length == r.length) = false →
        load_vectors rows = Except.error LoadError.dimMismatch)
    ∧ (keptRecords rows = [] →
        load_vectors rows = Except.error LoadError.emptyCorpus) := by
  refine ⟨?_, ?_, ?_, ?_, ?_, ?_⟩
  · intro v; simp [keptRecords]
  · intro t; simp [keptRecords]
  · intro t f; simp [keptRecords]
  · intro r rs h1 h2
    rw [load_vectors, h1, vstack, if_pos h2]
    rfl
  · intro r rs h1 h2
    rw [load_vectors, h1, vstack, if_neg (by simp [h2])]
    rfl
  · intro h1
    rw [load_vectors, h1]
    rfl

theorem load_vectors_amended_witness :
    load_vectors
      [(some "a", some [1]), (none, some [5]), (some "b", none), (some "c", some [2])]
      = Except.ok (["a", "c"], [[1], [2]])
    ∧ load_vectors [(some "a", some [1, 2]), (some "b", some [3])]
      = Except.error LoadError.dimMismatch := by
  constructor
  · exact (load_vectors_amended _).2.2.2.1 [1] [[2]] rfl rfl
  · exact (load_vectors_amended _).2.2.2.2.1 [1, 2] [[3]] rfl rfl

/-! #### Standardizer on a constant column and the build (C6) -/

/-- On a constant column the standardizer's divisor is the convention
value 1 and every standardized entry is exactly 0. -/
lemma const_col_scale_entries (sqrt : ℚ → ℚ) (X : List (List ℚ)) (j : Nat) (c : ℚ)
    (hne : X ≠ []) (hc : ∀ r ∈ X, r.getD j 0 = c) :
    colScale sqrt X j = 1
    ∧ ∀ r ∈ X, ∀ _ : j < r.length, (standardizeRow sqrt X r).getD j 0 = 0 := by
  have h0 : X.length ≠ 0 := fun h => hne (List.length_eq_zero.1 h)
  have hn : (X.length : ℚ) ≠ 0 := Nat.cast_ne_zero.2 h0
  have hmean : colMean X j = c := by
    unfold colMean
    rw [show (X.map fun r => r.getD j 0) = X.map fun _ => c from
      List.map_congr_left fun r hr => hc r hr]
    rw [List.map_const', List.sum_replicate, nsmul_eq_mul]
    exact mul_div_cancel_left₀ c hn
  have hvar : colVar X j = 0 := by
    unfold colVar
    rw [show (X.map fun r => (r.getD j 0 - colMean X j) ^ 2) = X.map fun _ => (0 : ℚ)
      from List.map_congr_left fun r hr => by rw [hc r hr, hmean, sub_self]; ring]
    rw [List.map_const', List.sum_replicate]
    simp
  refine ⟨?_, ?_⟩
  · unfold colScale
    rw [if_pos hvar]
  · intro r hr h
    have hscale : colScale sqrt X j = 1 := by unfold colScale; rw [if_pos hvar]
    have hlen : j < (standardizeRow sqrt X r).length := by
      simpa [standardizeRow] using h
    rw [List.getD_eq_getElem _ _ hlen]
    simp only [standardizeRow, List.getElem_mapIdx]
    have hrj : r[j] = c := by
      rw [← List.getD_eq_getElem r 0 h]
      exact hc r hr
    rw [hrj, hmean, sub_self, zero_div]

/-- Every row of a successfully normalized matrix has squared norm 1,
given the square root is exact at each row's squared norm; the rows
are non-zero automatically, because a zero row would have made the
normalization fail instead of succeed. -/
lemma buildEmbeddings_unit (sqrt : ℚ → ℚ) :
    ∀ M W : List (List ℚ), buildEmbeddings sqrt M = Except.ok W →
      (∀ v ∈ M, sqrt (normSq v) * sqrt (normSq v) = normSq v) →
      ∀ w ∈ W, normSq w = 1 := by
  intro M
  induction M with
  | nil =>
    intro W h _
    simp only [buildEmbeddings, Except.ok.injEq] at h
    subst h
    simp
  | cons v vs ih =>
    intro W h hexact
    by_cases h0 : normSq v = 0
    · have hnorm : normalizeE sqrt v = Except.error NormError.zeroVector := by
        simp [normalizeE, h0]
      rw [buildEmbeddings, hnorm] at h
      exact absurd h (by simp)
    · have hnorm : normalizeE sqrt v
          = Except.ok (v.map fun x => x / sqrt (normSq v)) := by
        simp [normalizeE, h0]
      rw [buildEmbeddings, hnorm] at h
      cases hvs : buildEmbeddings sqrt vs with
      | error e =>
        rw [hvs] at h
        exact absurd h (by simp)
      | ok ws =>
        rw [hvs] at h
        simp only [Except.ok.injEq] at h
        subst h
        intro w hw
        rcases List.mem_cons.1 hw with rfl | hw2
        · rw [normSq_div, hexact v (List.mem_cons_self _ _), div_self h0]
        · exact ih ws hvs (fun u hu => hexact u (List.mem_cons_of_mem _ hu)) w hw2

/-- A matrix containing a zero row never normalizes: the stage aborts
with the explicit zero-vector error. -/
lemma buildEmbeddings_zero_row (sqrt : ℚ → ℚ) :
    ∀ M : List (List ℚ), (∃ v ∈ M, normSq v = 0) →
      buildEmbeddings sqrt M = Except.error NormError.zeroVector := by
  intro M
  induction M with
  | nil =>
    intro h
    simp at h
  | cons v vs ih =>
    intro h
    by_cases h0 : normSq v = 0
    · have hnorm : normalizeE sqrt v = Except.error NormError.zeroVector := by
        simp [normalizeE, h0]
      rw [buildEmbeddings, hnorm]
    · have hvs : ∃ u ∈ vs, normSq u = 0 := by
        rcases h with ⟨u, hu, hu0⟩
        rcases List.mem_cons.1 hu with rfl | hmem
        · exact absurd hu0 h0
        · exact ⟨u, hmem, hu0⟩
      have hnorm : normalizeE sqrt v
          = Except.ok (v.map fun x => x / sqrt (normSq v)) := by
        simp [normalizeE, h0]
      rw [buildEmbeddings, hnorm, ih hvs]

/-- When the build succeeds, its embedding matrix is exactly the
successful normalization of the reduced matrix. -/
lemma buildMain_ok_embeddings (sqrt : ℚ → ℚ)
    (solver : (Nat → Nat) → List (List ℚ) → Nat → PCAModel)
    (rng : Nat → Nat) (target : Nat)
    (rows : List (Option String × Option (List ℚ)))
    (tids : List String) (X W : List (List ℚ)) (cfg : Config)
    (hload : load_vectors rows = Except.ok (tids, X))
    (h : buildMain sqrt solver rng true target rows = Except.ok (tids, W, cfg)) :
    buildEmbeddings sqrt (reducedMatrix sqrt solver rng target X) = Except.ok W := by
  unfold buildMain at h
  rw [hload] at h
  simp only [if_true] at h
  cases hemb : buildEmbeddings sqrt (reducedMatrix sqrt solver rng target X) with
  | error e =>
    unfold reducedMatrix at hemb
    rw [hemb] at h
    exact absurd h (by simp)
  | ok W2 =>
    have hemb2 := hemb
    unfold reducedMatrix at hemb2
    rw [hemb2] at h
    simp only [Except.ok.injEq, Prod.mk.injEq] at h
    rw [h.2.1]

/-- A normalization failure propagates out of the build as the
explicit norm error. -/
lemma buildMain_norm_error (sqrt : ℚ → ℚ)
    (solver : (Nat → Nat) → List (List ℚ) → Nat → PCAModel)
    (rng : Nat → Nat) (target : Nat)
    (rows : List (Option String × Option (List ℚ)))
    (tids : List String) (X : List (List ℚ)) (e : NormError)
    (hload : load_vectors rows = Except.ok (tids, X))
    (hemb : buildEmbeddings sqrt (reducedMatrix sqrt solver rng target X)
      = Except.error e) :
    buildMain sqrt solver rng true target rows
      = Except.error (BuildError.norm e) := by
  unfold buildMain
  rw [hload]
  simp only [if_true]
  unfold reducedMatrix at hemb
  rw [hemb]

/-- Claim C6 counterexample: a corpus in which the (only) dimension is
constant across all records — value 4 for every row — does not make
the full build complete: the rows standardize to the zero vector, and
the normalization stage of the build aborts with the explicit
zero-vector error, so the build returns an error, not a stored
embedding set. -/
theorem standardize_const_build_cex :
    (∀ r ∈ [[(4 : ℚ)], [4]], r.getD 0 0 = 4)
    ∧ buildMain (fun _ => 1) (fun _ _ _ => ⟨fun i r => r.getD i 0, []⟩)
        (fun n => n) true 64 [(some "a", some [4]), (some "b", some [4])]
      = Except.error (BuildError.norm NormError.zeroVector) := by
  constructor
  · decide
  · norm_num [buildMain, load_vectors, keptRecords, vstack, fit_transform,
      standardizeRow, colMean, colVar, colScale, normSq, pca_fit_transform,
      pcaProject, pcaFit, RANDOM_STATE, buildEmbeddings, normalizeE, rawDim,
      List.mapIdx_cons, List.filterMap_cons, Except.map, List.range_succ,
      List.getD_cons_zero, List.getD_cons_succ]

/-- Claim C6 (amended): a dimension that is constant across all
records has population variance zero, so the standardizer's divisor
for it is the substituted convention value 1 — never zero — and every
standardized entry in that dimension is exactly 0, producing no NaN or
Inf there.  The full build, however, is not guaranteed to complete:
it never silently produces NaN — whenever it completes, every stored
embedding row has squared norm exactly 1 (under an exact square root
at each normalized row) — but when the reduced matrix contains a zero
row (as happens when every dimension is constant) the build aborts
with the explicit zero-vector error instead of completing. -/
theorem standardize_const_col_amended (sqrt : ℚ → ℚ) (X : List (List ℚ))
    (j : Nat) (c : ℚ) (hne : X ≠ []) (hc : ∀ r ∈ X, r.getD j 0 = c) :
    colScale sqrt X j = 1
    ∧ (∀ r ∈ X, ∀ _ : j < r.length, (standardizeRow sqrt X r).getD j 0 = 0)
    ∧ (∀ solver rng target rows tids W cfg,
        load_vectors rows = Except.ok (tids, X) →
        buildMain sqrt solver rng true target rows = Except.ok (tids, W, cfg) →
        (∀ v ∈ reducedMatrix sqrt solver rng target X,
          sqrt (normSq v) * sqrt (normSq v) = normSq v) →
        ∀ w ∈ W, normSq w = 1)
    ∧ (∀ solver rng target rows tids,
        load_vectors rows = Except.ok (tids, X) →
        (∃ v ∈ reducedMatrix sqrt solver rng target X, normSq v = 0) →
        buildMain sqrt solver rng true target rows
          = Except.error (BuildError.norm NormError.zeroVector)) := by
  obtain ⟨hscale, hentry⟩ := const_col_scale_entries sqrt X j c hne hc
  refine ⟨hscale, hentry, ?_, ?_⟩
  · intro solver rng target rows tids W cfg hload hok hexact
    exact buildEmbeddings_unit sqrt _ W
      (buildMain_ok_embeddings sqrt solver rng target rows tids X W cfg hload hok)
      hexact
  · intro solver rng target rows tids hload hzero
    exact buildMain_norm_error sqrt solver rng target rows tids X
      NormError.zeroVector hload (buildEmbeddings_zero_row sqrt _ hzero)

theorem standardize_const_col_amended_witness :
    (colScale (fun q => if q = (1 : ℚ) / 4 then 1 / 2 else 1) [[4, 1], [4, 2]] 0 = 1
      ∧ normSq [(0 : ℚ), -1] = 1)
    ∧ buildMain (fun _ => 1) (fun _ _ _ => ⟨fun i r => r.getD i 0, []⟩)
        (fun n => n) true 64 [(some "a", some [4]), (some "b", some [4])]
      = Except.error (BuildError.norm NormError.zeroVector) := by
  constructor
  · have h := standardize_const_col_amended
      (fun q => if q = (1 : ℚ) / 4 then 1 / 2 else 1) [[4, 1], [4, 2]] 0 4
      (by simp) (by decide)
    refine ⟨h.1, ?_⟩
    refine h.2.2.1 (fun _ _ _ => ⟨fun i r => r.getD i 0, []⟩) (fun n => n) 64
      [(some "a", some [4, 1]), (some "b", some [4, 2])] ["a", "b"]
      [[0, -1], [0, 1]] (Config.mk 2 2 true 64 2) ?_ ?_ ?_ [(0 : ℚ), -1] (by simp)
    · norm_num [load_vectors, keptRecords, vstack, Except.map, List.filterMap_cons]
    · norm_num [buildMain, load_vectors, keptRecords, vstack, fit_transform,
        standardizeRow, colMean, colVar, colScale, normSq, pca_fit_transform,
        pcaProject, pcaFit, RANDOM_STATE, buildEmbeddings, normalizeE, rawDim,
        List.mapIdx_cons, List.filterMap_cons, Except.map, List.range_succ,
        List.getD_cons_zero, List.getD_cons_succ]
    · norm_num [reducedMatrix, fit_transform, standardizeRow, colMean, colVar,
        colScale, normSq, pca_fit_transform, pcaProject, pcaFit, RANDOM_STATE,
        rawDim, List.mapIdx_cons, List.range_succ, List.getD_cons_zero,
        List.getD_cons_succ]
  · have h := standardize_const_col_amended (fun _ => 1) [[4], [4]] 0 4
      (by simp) (by decide)
    refine h.2.2.2 (fun _ _ _ => ⟨fun i r => r.getD i 0, []⟩) (fun n => n) 64
      [(some "a", some [4]), (some "b", some [4])] ["a", "b"] ?_ ?_
    · norm_num [load_vectors, keptRecords, vstack, Except.map, List.filterMap_cons]
    · refine ⟨[0], ?_, by norm_num [normSq]⟩
      norm_num [reducedMatrix, fit_transform, standardizeRow, colMean, colVar,
        colScale, normSq, pca_fit_transform, pcaProject, pcaFit, RANDOM_STATE,
        rawDim, List.mapIdx_cons, List.range_succ, List.getD_cons_zero,
        List.getD_cons_succ]

/-! #### Artifact save sequence (C7) -/

/-- Claim C7 counterexample: the save step does not write to temporary
locations — every write in the sequence targets a final artifact path —
and interrupting the modelled save after its first write leaves a
mixed state over a previously complete old set: the scaler artifact
already holds the new content while the knn artifact still holds the
old, so neither the old set is intact nor the new set complete. -/
theorem save_not_atomic_cex :
    ((saveSteps true).all fun e => e.toTemp) = false
    ∧ runWrites 1 ((saveSteps true).take 1) (fun _ => 0) "scaler.pkl" = 1
    ∧ runWrites 1 ((saveSteps true).take 1) (fun _ => 0) "knn.pkl" = 0 := by
  refine ⟨rfl, ?_, ?_⟩ <;> rfl

/-- Claim C7 (amended): the save step writes each artifact directly to
its final location, in order scaler, pca (when reduction is enabled),
knn, id list, embeddings, manifest; a run of the whole sequence leaves
every artifact at the new content, but a run interrupted after the
first write leaves the scaler new while the knn artifact keeps
whatever the store held before — a mixed set, with no staging or
atomic publish step. -/
theorem save_direct_writes (v : Nat) (fs : String → Nat) :
    (∀ p ∈ artifactPaths true, runWrites v (saveSteps true) fs p = v)
    ∧ runWrites v ((saveSteps true).take 1) fs "scaler.pkl" = v
    ∧ runWrites v ((saveSteps true).take 1) fs "knn.pkl" = fs "knn.pkl" := by
  refine ⟨?_, ?_, ?_⟩
  · intro p hp
    simp only [artifactPaths, if_true, List.cons_append, List.nil_append,
      List.mem_cons, List.not_mem_nil, or_false] at hp
    rcases hp with rfl | rfl | rfl | rfl | rfl | rfl <;>
      simp [runWrites, saveSteps, artifactPaths]
  · simp [runWrites, saveSteps, artifactPaths]
  · simp [runWrites, saveSteps, artifactPaths]

theorem save_direct_writes_witness :
    runWrites 7 (saveSteps true) (fun _ => 0) "knn.pkl" = 7 :=
  (save_direct_writes 7 fun _ => 0).1 "knn.pkl" (by simp [artifactPaths])

/-! #### Index query contract (C1) -/

/-- Claim C1: on an index whose ids are unique and parallel to the
embedding matrix, a query with a vector of the stored dimensionality
succeeds and returns exactly min(k, n) results, sorted by
non-decreasing cosine distance with ties broken by lexical id order
(the pairwise queryRel relation), and with no duplicate ids. -/
theorem query_spec (sqrt : ℚ → ℚ) (idx : Index) (v : List ℚ) (k : Nat)
    (hids : idx.ids.Nodup) (hlen : idx.emb.length = idx.ids.length)
    (hdim : v.length = idx.dim) :
    ∃ res, query sqrt idx v k = Except.ok res
      ∧ res.length = min k idx.ids.length
      ∧ List.Pairwise queryRel res
      ∧ (res.map Prod.fst).Nodup := by
  have hok : query sqrt idx v k = Except.ok
      ((List.insertionSort queryRel
        (idx.ids.zip (idx.emb.map (cosineDist sqrt v)))).take (min k idx.ids.length)) := by
    unfold query
    rw [if_pos hdim]
  refine ⟨_, hok, ?_, ?_, ?_⟩
  · rw [List.length_take, List.length_insertionSort, List.length_zip,
      List.length_map, hlen, min_self]
    omega
  · exact List.Pairwise.sublist (List.take_sublist _ _)
      (List.sorted_insertionSort queryRel _)
  · have hperm := List.perm_insertionSort queryRel
      (idx.ids.zip (idx.emb.map (cosineDist sqrt v)))
    have h1 : (idx.ids.zip (idx.emb.map (cosineDist sqrt v))).map Prod.fst
        = idx.ids :=
      List.map_fst_zip _ _ (by rw [List.length_map, hlen])
    have h2 : ((List.insertionSort queryRel
        (idx.ids.zip (idx.emb.map (cosineDist sqrt v)))).map Prod.fst).Nodup := by
      have h3 := hperm.map Prod.fst
      rw [h1] at h3
      exact h3.nodup_iff.2 hids
    exact List.Nodup.sublist (List.Sublist.map _ (List.take_sublist _ _)) h2

theorem query_spec_witness :
    ∃ res, query (fun _ => 1) ⟨["b", "a"], [[1, 0], [0, 1]], 2⟩ [1, 0] 5
        = Except.ok res
      ∧ res.length = min 5 (["b", "a"] : List String).length
      ∧ List.Pairwise queryRel res
      ∧ (res.map Prod.fst).Nodup :=
  query_spec (fun _ => 1) ⟨["b", "a"], [[1, 0], [0, 1]], 2⟩ [1, 0] 5
    (by decide) rfl rfl

/-! #### Manifest dimension bookkeeping (C4) -/

lemma length_standardizeRow (sqrt : ℚ → ℚ) (X : List (List ℚ)) (r : List ℚ) :
    (standardizeRow sqrt X r).length = r.length := by
  simp [standardizeRow]

lemma rawDim_fit_transform (sqrt : ℚ → ℚ) (X : List (List ℚ)) :
    rawDim (fit_transform sqrt X) = rawDim X := by
  cases X with
  | nil => rfl
  | cons r rs => simp [rawDim, fit_transform, length_standardizeRow]

lemma fit_transform_ne_nil (sqrt : ℚ → ℚ) {X : List (List ℚ)} (h : X ≠ []) :
    fit_transform sqrt X ≠ [] := by
  simpa [fit_transform] using h

lemma rawDim_pca (basis : Nat → List ℚ → ℚ) (k : Nat) {X : List (List ℚ)}
    (h : X ≠ []) : rawDim (pca_fit_transform basis k X) = k := by
  cases X with
  | nil => exact absurd rfl h
  | cons r rs => simp [rawDim, pca_fit_transform, pcaProject]

lemma pca_fit_transform_ne_nil (basis : Nat → List ℚ → ℚ) (k : Nat)
    {X : List (List ℚ)} (h : X ≠ []) : pca_fit_transform basis k X ≠ [] := by
  simpa [pca_fit_transform] using h

lemma buildEmbeddings_lengths (sqrt : ℚ → ℚ) :
    ∀ X W : List (List ℚ), buildEmbeddings sqrt X = Except.ok W →
      W.map List.length = X.map List.length := by
  intro X
  induction X with
  | nil =>
    intro W h
    simp only [buildEmbeddings, Except.ok.injEq] at h
    subst h
    rfl
  | cons v vs ih =>
    intro W h
    by_cases h0 : normSq v = 0
    · have hnorm : normalizeE sqrt v = Except.error NormError.zeroVector := by
        simp [normalizeE, h0]
      rw [buildEmbeddings, hnorm] at h
      exact absurd h (by simp)
    · have hnorm : normalizeE sqrt v
          = Except.ok (v.map fun x => x / sqrt (normSq v)) := by
        simp [normalizeE, h0]
      rw [buildEmbeddings, hnorm] at h
      cases hvs : buildEmbeddings sqrt vs with
      | error e =>
        rw [hvs] at h
        exact absurd h (by simp)
      | ok ws =>
        rw [hvs] at h
        simp only [Except.ok.injEq] at h
        subst h
        simp only [List.map_cons, List.length_map]
        rw [ih ws hvs]

lemma rawDim_eq_of_map_length {W X : List (List ℚ)}
    (h : W.map List.length = X.map List.length) : rawDim W = rawDim X := by
  cases W with
  | nil =>
    cases X with
    | nil => rfl
    | cons x xs => simp at h
  | cons w ws =>
    cases X with
    | nil => simp at h
    | cons x xs =>
      simp only [List.map_cons, List.cons.injEq] at h
      simp [rawDim, h.1]

lemma load_vectors_ne_nil (rows : List (Option String × Option (List ℚ)))
    (t : List String) (X : List (List ℚ))
    (h : load_vectors rows = Except.ok (t, X)) : X ≠ [] := by
  unfold load_vectors at h
  cases hv : vstack ((keptRecords rows).map Prod.snd) with
  | error e =>
    rw [hv] at h
    exact absurd h (by simp [Except.map])
  | ok M =>
    rw [hv] at h
    simp only [Except.map, Except.ok.injEq, Prod.mk.injEq] at h
    obtain ⟨-, hX⟩ := h
    subst hX
    cases hk : (keptRecords rows).map Prod.snd with
    | nil =>
      rw [hk] at hv
      exact absurd hv (by simp [vstack])
    | cons r rs =>
      rw [hk] at hv
      simp only [vstack] at hv
      by_cases hall : (rs.all fun s => s.length == r.length) = true
      · rw [if_pos hall] at hv
        simp only [Except.ok.injEq] at hv
        subst hv
        simp
      · rw [if_neg hall] at hv
        exact absurd hv (by simp)

/-- Claim C4: whenever the build pipeline (with reduction enabled)
completes, the manifest records the requested component count exactly
as configured and a final dimension equal to min(requested, raw
dimension) — a target exceeding the raw dimension is silently clamped,
never rejected — and that final dimension truthfully equals the width
of the stored embedding matrix. -/
theorem build_manifest_clamped (sqrt : ℚ → ℚ)
    (solver : (Nat → Nat) → List (List ℚ) → Nat → PCAModel)
    (rng : Nat → Nat) (target : Nat)
    (rows : List (Option String × Option (List ℚ)))
    (tids : List String) (W : List (List ℚ)) (cfg : Config)
    (h : buildMain sqrt solver rng true target rows = Except.ok (tids, W, cfg)) :
    cfg.pca_components_requested = target
    ∧ cfg.final_dim = min target cfg.raw_dim
    ∧ cfg.final_dim = rawDim W := by
  unfold buildMain at h
  cases hload : load_vectors rows with
  | error e =>
    rw [hload] at h
    exact absurd h (by simp)
  | ok p =>
    obtain ⟨t, X⟩ := p
    rw [hload] at h
    have hXne : X ≠ [] := load_vectors_ne_nil rows t X hload
    simp only [if_true] at h
    cases hemb : buildEmbeddings sqrt
        (pca_fit_transform
          (pcaFit solver RANDOM_STATE rng (fit_transform sqrt X)
            (min target (rawDim (fit_transform sqrt X)))).components
          (min target (rawDim (fit_transform sqrt X))) (fit_transform sqrt X)) with
    | error e =>
      rw [hemb] at h
      exact absurd h (by simp)
    | ok W2 =>
      rw [hemb] at h
      simp only [Except.ok.injEq, Prod.mk.injEq] at h
      obtain ⟨-, hW, hcfg⟩ := h
      subst hW
      subst hcfg
      have hscaled := rawDim_fit_transform sqrt X
      have hXsne := fit_transform_ne_nil sqrt hXne
      have hW2 : rawDim W2 = min target (rawDim (fit_transform sqrt X)) := by
        rw [rawDim_eq_of_map_length (buildEmbeddings_lengths sqrt _ W2 hemb)]
        exact rawDim_pca _ _ hXsne
      refine ⟨rfl, ?_, rfl⟩
      show rawDim W2 = min target (rawDim X)
      rw [hW2, hscaled]

theorem build_manifest_clamped_witness :
    (Config.mk 2 1 true 64 1).pca_components_requested = 64
    ∧ (Config.mk 2 1 true 64 1).final_dim = min 64 (Config.mk 2 1 true 64 1).raw_dim
    ∧ (Config.mk 2 1 true 64 1).final_dim = rawDim [[-1], [1]] :=
  build_manifest_clamped (fun _ => 1) (fun _ _ _ => ⟨fun i r => r.getD i 0, []⟩)
    (fun n => n) 64 [(some "a", some [2]), (some "b", some [4])]
    ["a", "b"] [[-1], [1]] (Config.mk 2 1 true 64 1)
    (by norm_num [buildMain, load_vectors, keptRecords, vstack, fit_transform,
      standardizeRow, colMean, colVar, colScale, normSq, pca_fit_transform,
      pcaProject, pcaFit, RANDOM_STATE, buildEmbeddings, normalizeE, rawDim,
      List.mapIdx_cons, List.filterMap_cons, Except.map, List.range_succ,
      List.getD_cons_zero, List.getD_cons_succ])

end SongRec
